import Mathlib

/-!
Shallow embedding of `scripts/fetch_stock_prices.py` (BTD-alarm2): a daily
stock-price ingestion pipeline.  Pure data flow is embedded as Lean
functions; the ambient effects (network calls, the configuration error,
sleeps) are made explicit: the network/error behaviour of a run is an
event trace, and each sleep site is a function of the random draws the
source feeds it.  Prices are embedded as rationals, timestamps as an
epoch-day plus a second-of-day.
-/

namespace BTD

/-- The static ticker roster (`TICKERS` in the source). -/
def TICKERS : List String :=
  ["SPY", "SSO", "UPRO", "QQQ", "QLD", "TQQQ",
   "SOXX", "USD", "SOXL", "STRC", "BIL", "ICSH", "SGOV"]

/-- Minimum batch size (source constant `MIN_BATCH_SIZE = 2`). -/
def MIN_BATCH_SIZE : Nat := 2

/-- Maximum batch size (source constant `MAX_BATCH_SIZE = 3`). -/
def MAX_BATCH_SIZE : Nat := 3

/-- Minimum inter-batch delay in seconds (source constant `MIN_DELAY = 2.5`). -/
def MIN_DELAY : ℚ := 5 / 2

/-- Maximum inter-batch delay in seconds (source constant `MAX_DELAY = 3.5`). -/
def MAX_DELAY : ℚ := 7 / 2

/-- Maximum retry count (source constant `MAX_RETRIES = 3`). -/
def MAX_RETRIES : Nat := 3

/-- Initial retry delay in seconds (source constant `INITIAL_RETRY_DELAY = 5`). -/
def INITIAL_RETRY_DELAY : ℚ := 5

/-- A UTC instant: the calendar day (as an epoch day count) together with
the second of that day.  `datetime.date()` projects out `epochDay`;
subtracting a whole number of days leaves `secOfDay` unchanged. -/
structure UTCTime where
  epochDay : Int
  secOfDay : Nat
deriving DecidableEq, Repr

/-- `t - datetime.timedelta(days = d)` for a whole number of days. -/
def UTCTime.subDays (t : UTCTime) (d : Int) : UTCTime :=
  { t with epochDay := t.epochDay - d }

/-- A normalized quote as returned by `fetch_ticker_price`: the dict
`{"symbol": ..., "close": ...}`.  Both fields are `Option`s because the
normalizer `build_rows` re-reads them with `.get` and guards against
missing values. -/
structure Quote where
  symbol : Option String
  close : Option ℚ
deriving DecidableEq, Repr

/-- A row of the `stock_prices` table, as built by `build_rows`. -/
structure StockPriceRow where
  symbol : String
  trade_date : Int
  close : ℚ
  fetched_at : UTCTime
deriving DecidableEq, Repr

/-- Outcome of one attempt of the `try` block of `fetch_ticker_price`:
either the one-day history is non-empty and yields a close, or it is
empty and `ticker.info` yields an optional `previousClose`, or an
exception is raised (network error, rate limit, timeout, ...). -/
inductive FetchOutcome where
  | histClose (c : ℚ)
  | prevClose (c : Option ℚ)
  | error
deriving DecidableEq, Repr

/-- `fetch_ticker_price(ticker_symbol, retry_count)`: one attempt per call;
on success return the quote dict, on an empty history fall back to
`previousClose` (a missing `previousClose` returns `None` without retry),
on an exception retry with `retry_count + 1` while `retry_count <
MAX_RETRIES`, else return `None`.  `oracle n` is the outcome of the
attempt made at retry count `n`. -/
def fetch_ticker_price (oracle : Nat → FetchOutcome) (ticker_symbol : String)
    (retry_count : Nat) : Option Quote :=
  match oracle retry_count with
  | .histClose c => some ⟨some ticker_symbol, some c⟩
  | .prevClose none => none
  | .prevClose (some c) => some ⟨some ticker_symbol, some c⟩
  | .error =>
    if retry_count < MAX_RETRIES then
      fetch_ticker_price oracle ticker_symbol (retry_count + 1)
    else
      none
termination_by MAX_RETRIES - retry_count
decreasing_by omega

/-- The number of attempts (executions of the `try` body) performed by
`fetch_ticker_price` starting from retry count `retry_count`. -/
def fetch_ticker_attempts (oracle : Nat → FetchOutcome) (retry_count : Nat) : Nat :=
  match oracle retry_count with
  | .error =>
    if retry_count < MAX_RETRIES then
      1 + fetch_ticker_attempts oracle (retry_count + 1)
    else
      1
  | _ => 1
termination_by MAX_RETRIES - retry_count
decreasing_by omega

/-- The backoff delay slept before the retry at retry count
`retry_count`: `INITIAL_RETRY_DELAY * (2 ** retry_count)` (source line
`delay = INITIAL_RETRY_DELAY * (2 ** retry_count)`). -/
def retry_delay (retry_count : Nat) : ℚ :=
  INITIAL_RETRY_DELAY * 2 ^ retry_count

/-- The sequence of backoff sleeps performed by `fetch_ticker_price`.
`rand` is the ambient random stream (`random` module) available to the
function; the source computes each backoff delay without consulting it,
so `rand` is never read. -/
def fetch_ticker_sleeps (rand : Nat → ℚ) (oracle : Nat → FetchOutcome)
    (retry_count : Nat) : List ℚ :=
  match oracle retry_count with
  | .error =>
    if retry_count < MAX_RETRIES then
      retry_delay retry_count :: fetch_ticker_sleeps rand oracle (retry_count + 1)
    else
      []
  | _ => []
termination_by MAX_RETRIES - retry_count
decreasing_by omega

/-- `random.uniform(a, b)`: with `r ∈ [0,1]` the underlying draw, the
value `a + (b - a) * r`. -/
def uniform (a b r : ℚ) : ℚ := a + (b - a) * r

/-- The inter-batch pause of `fetch_all_quotes`:
`random.uniform(MIN_DELAY, MAX_DELAY)`. -/
def inter_batch_delay (r : ℚ) : ℚ := uniform MIN_DELAY MAX_DELAY r

/-- The inter-ticker pause of `fetch_quotes_batch`:
`random.uniform(0.5, 1.0)`. -/
def inter_ticker_delay (r : ℚ) : ℚ := uniform (1 / 2) 1 r

/-- A per-ticker attempt oracle: `oracle t n` is the outcome of the
attempt at retry count `n` for ticker `t`. -/
def FetchOracle := String → Nat → FetchOutcome

/-- `fetch_quotes_batch(tickers)`: fetch each ticker of the batch in
order with `fetch_ticker_price(ticker)` (retry count 0) and keep the
non-`None` results. -/
def fetch_quotes_batch (oracle : FetchOracle) (tickers : List String) : List Quote :=
  tickers.filterMap fun ticker => fetch_ticker_price (oracle ticker) ticker 0

/-- One value of `random.randint(MIN_BATCH_SIZE, MAX_BATCH_SIZE)`:
an integer in `[2, 3]`. -/
def BatchChoice := {n : Nat // MIN_BATCH_SIZE ≤ n ∧ n ≤ MAX_BATCH_SIZE}

/-- The loop of `fetch_all_quotes`, with `remaining = tickers[i:]`: while
instruments remain, draw a batch size, fetch the slice
`tickers[i : i + batch_size]`, and append its quotes.  `choice k` is the
batch size drawn for batch number `k` (1-based in the source's
`batch_num`; indexing here starts at the current batch). -/
def fetch_all_quotes_go (oracle : FetchOracle) (choice : Nat → BatchChoice)
    (batch_num : Nat) (remaining : List String) : List Quote :=
  if h : remaining = [] then []
  else
    let batch_size := (choice batch_num).val
    let batch := remaining.take batch_size
    fetch_quotes_batch oracle batch ++
      fetch_all_quotes_go oracle choice (batch_num + 1) (remaining.drop batch_size)
termination_by remaining.length
decreasing_by
  have h2 := (choice batch_num).2.1
  have h3 : 0 < remaining.length := List.length_pos.mpr h
  simp only [List.length_drop]
  simp only [MIN_BATCH_SIZE] at h2
  omega

/-- `fetch_all_quotes(tickers)`. -/
def fetch_all_quotes (oracle : FetchOracle) (choice : Nat → BatchChoice)
    (tickers : List String) : List Quote :=
  fetch_all_quotes_go oracle choice 1 tickers

/-- The successive batches (slices of the roster) processed by
`fetch_all_quotes`. -/
def fetch_all_batches (choice : Nat → BatchChoice) (batch_num : Nat)
    (remaining : List String) : List (List String) :=
  if h : remaining = [] then []
  else
    let batch_size := (choice batch_num).val
    remaining.take batch_size ::
      fetch_all_batches choice (batch_num + 1) (remaining.drop batch_size)
termination_by remaining.length
decreasing_by
  have h2 := (choice batch_num).2.1
  have h3 : 0 < remaining.length := List.length_pos.mpr h
  simp only [List.length_drop]
  simp only [MIN_BATCH_SIZE] at h2
  omega

/-- `build_rows(quotes)`: stamp the run instant once (`now`), derive
`trade_date` from its UTC calendar date and `fetched_at` from the
instant, and emit one row per quote that has a truthy symbol and a
non-`None` close (`if not symbol or close is None: continue`). -/
def build_rows (now : UTCTime) (quotes : List Quote) : List StockPriceRow :=
  let trade_date := now.epochDay
  let fetched_at := now
  quotes.filterMap fun quote =>
    match quote.symbol, quote.close with
    | some symbol, some close =>
      if symbol = "" then none
      else some ⟨symbol, trade_date, close, fetched_at⟩
    | _, _ => none

/-- The two configuration secrets read from the environment;
`none` models an unset variable. -/
structure Env where
  SUPABASE_URL : Option String
  SUPABASE_SERVICE_ROLE_KEY : Option String
deriving DecidableEq, Repr

/-- Python truthiness test `not x` on `os.environ.get(...)`: true for an
unset variable and for the empty string. -/
def falsy : Option String → Bool
  | none => true
  | some s => s = ""

/-- `not supabase_url or not service_key`: the configuration guard shared
by `upsert_to_supabase` and `cleanup_old_stock_prices`. -/
def missingConfig (env : Env) : Bool :=
  falsy env.SUPABASE_URL || falsy env.SUPABASE_SERVICE_ROLE_KEY

/-- Two rows collide on the merge key `(symbol, trade_date)`. -/
def sameKey (a b : StockPriceRow) : Bool :=
  a.symbol = b.symbol && a.trade_date = b.trade_date

/-- Modelled from the spec: the persistence store's merge-on-conflict
write for one incoming row, keyed by `(symbol, trade_date)` (the request
carries `on_conflict=symbol,trade_date` and
`Prefer: resolution=merge-duplicates`): an existing row for the key is
overwritten with the new row, an absent key is inserted. -/
def store_merge_one (store : List StockPriceRow) (r : StockPriceRow) :
    List StockPriceRow :=
  if store.any (sameKey r) then
    store.map fun s => if sameKey r s then r else s
  else
    store ++ [r]

/-- Modelled from the spec: the store's handling of the whole upsert
request body, merging the incoming rows in order. -/
def store_merge (store : List StockPriceRow) (rows : List StockPriceRow) :
    List StockPriceRow :=
  rows.foldl store_merge_one store

/-- Modelled from the spec: the store's handling of the pruner's delete
request `trade_date=lt.{cutoff}`: remove exactly the rows whose
`trade_date` is strictly before the cutoff. -/
def store_delete_before (store : List StockPriceRow) (cutoff : Int) :
    List StockPriceRow :=
  store.filter fun r => ¬ r.trade_date < cutoff

/-- No two stored rows share the merge key `(symbol, trade_date)`. -/
def KeysUnique (store : List StockPriceRow) : Prop :=
  store.Pairwise fun a b => sameKey a b = false

/-- The externally observable events of a run, in order: a quote-upstream
call (one per `fetch_ticker_price` attempt), the store upsert `POST`, the
pruner's count `GET` and delete `DELETE`, and the raising of the
configuration `RuntimeError`. -/
inductive Event where
  | netFetch (sym : String)
  | netUpsert
  | netPruneCount
  | netPruneDelete
  | configError
deriving DecidableEq, Repr

/-- An event is one of the pruner's network calls. -/
def Event.isPrune : Event → Bool
  | .netPruneCount => true
  | .netPruneDelete => true
  | _ => false

/-- The quote-upstream calls made by `fetch_ticker_price` for `sym`:
one per attempt. -/
def fetch_ticker_events (oracle : Nat → FetchOutcome) (sym : String) : List Event :=
  List.replicate (fetch_ticker_attempts oracle 0) (.netFetch sym)

/-- The quote-upstream calls made by `fetch_quotes_batch` over one batch,
in batch order. -/
def fetch_batch_events (oracle : FetchOracle) (tickers : List String) : List Event :=
  tickers.flatMap fun t => fetch_ticker_events (oracle t) t

/-- The quote-upstream calls made by the batch loop of
`fetch_all_quotes`, batch by batch. -/
def fetch_all_events_go (oracle : FetchOracle) (choice : Nat → BatchChoice)
    (batch_num : Nat) (remaining : List String) : List Event :=
  if h : remaining = [] then []
  else
    let batch_size := (choice batch_num).val
    fetch_batch_events oracle (remaining.take batch_size) ++
      fetch_all_events_go oracle choice (batch_num + 1) (remaining.drop batch_size)
termination_by remaining.length
decreasing_by
  have h2 := (choice batch_num).2.1
  have h3 : 0 < remaining.length := List.length_pos.mpr h
  simp only [List.length_drop]
  simp only [MIN_BATCH_SIZE] at h2
  omega

/-- The quote-upstream calls of a whole `fetch_all_quotes(tickers)` run. -/
def fetch_all_events (oracle : FetchOracle) (choice : Nat → BatchChoice)
    (tickers : List String) : List Event :=
  fetch_all_events_go oracle choice 1 tickers

/-- Result of `upsert_to_supabase`, which raises on a missing secret
before issuing its network call, and raises on a status `>= 300`. -/
inductive UpsertResult where
  | configError
  | httpError (status : Nat)
  | ok
deriving DecidableEq, Repr

/-- `upsert_to_supabase(rows)`: the result together with the events it
emits.  The configuration guard runs before the `POST`; a non-2xx status
raises after it. -/
def upsert_to_supabase (env : Env) (status : Nat) :
    UpsertResult × List Event :=
  if missingConfig env then
    (.configError, [.configError])
  else if 300 ≤ status then
    (.httpError status, [.netUpsert])
  else
    (.ok, [.netUpsert])

/-- Result of `cleanup_old_stock_prices`: it raises on a missing secret,
performs a count `GET` (whose status only affects logging), performs the
`DELETE`, and raises on a delete status `>= 300`. -/
inductive CleanupResult where
  | configError
  | httpError (status : Nat)
  | ok
deriving DecidableEq, Repr

/-- `cleanup_old_stock_prices()`: result, emitted events, and the store
after the delete request (the store is unchanged when the function raises
before reaching the `DELETE`).  The cutoff is
`(now - timedelta(days=300)).date()`. -/
def cleanup_old_stock_prices (env : Env) (now : UTCTime) (deleteStatus : Nat)
    (store : List StockPriceRow) :
    CleanupResult × List Event × List StockPriceRow :=
  if missingConfig env then
    (.configError, [], store)
  else
    let cutoff := (now.subDays 300).epochDay
    let store' := store_delete_before store cutoff
    if 300 ≤ deleteStatus then
      (.httpError deleteStatus, [.netPruneCount, .netPruneDelete], store')
    else
      (.ok, [.netPruneCount, .netPruneDelete], store')

/-- The verdict of one `main()` run: a normal return (exit 0), the early
"no rows" return (exit 0), or a propagated exception (exit non-zero). -/
inductive RunResult where
  | success
  | noRows
  | fatalConfig
  | fatalUpsert (status : Nat)
deriving DecidableEq, Repr

/-- `main()`: fetch all quotes (network calls to the quote upstream),
build the rows, return early if none, upsert (fatal on config error or
non-2xx), then prune inside `try/except` so that any pruning failure is
caught and the run still returns normally.  Produces the verdict, the
ordered event trace, and the final store contents. -/
def main_run (env : Env) (oracle : FetchOracle) (choice : Nat → BatchChoice)
    (now : UTCTime) (upsertStatus deleteStatus : Nat)
    (store : List StockPriceRow) :
    RunResult × List Event × List StockPriceRow :=
  let quotes := fetch_all_quotes oracle choice TICKERS
  let fetchEv := fetch_all_events oracle choice TICKERS
  let rows := build_rows now quotes
  if rows = [] then
    (.noRows, fetchEv, store)
  else
    match upsert_to_supabase env upsertStatus with
    | (.configError, ev) => (.fatalConfig, fetchEv ++ ev, store)
    | (.httpError s, ev) => (.fatalUpsert s, fetchEv ++ ev, store)
    | (_, ev) =>
      let store₁ := store_merge store rows
      let (_, cleanEv, store₂) :=
        cleanup_old_stock_prices env now deleteStatus store₁
      (.success, fetchEv ++ ev ++ cleanEv, store₂)

/-- A fixed batch-size draw of 2, used for concrete runs. -/
def choiceTwo : Nat → BatchChoice := fun _ => ⟨2, by decide⟩

/-- A concrete environment with both secrets missing. -/
def envMissing : Env := ⟨none, none⟩

/-- A concrete environment with both secrets present. -/
def envOK : Env := ⟨some "https://example.supabase.co", some "service-key"⟩

/-- A concrete oracle under which every attempt returns a close of 1
from the one-day history. -/
def oracleOK : FetchOracle := fun _ _ => .histClose 1

/-- A concrete oracle under which every attempt for `"SPY"` raises and
every other ticker succeeds with a close of 1. -/
def oracleSPYFails : FetchOracle := fun t _ =>
  if t = "SPY" then .error else .histClose 1

/-- A concrete run instant. -/
def now₀ : UTCTime := ⟨20000, 0⟩

/-! ### Lemmas about the batched fetch loop -/

/-- Slicing the roster into batches does not change the fetched quotes:
the batch loop computes the same list as one pass over the whole
remaining roster. -/
lemma fetch_all_quotes_go_eq (oracle : FetchOracle) (choice : Nat → BatchChoice) :
    ∀ (n batch_num : Nat) (remaining : List String), remaining.length ≤ n →
      fetch_all_quotes_go oracle choice batch_num remaining =
        fetch_quotes_batch oracle remaining := by
  intro n
  induction n with
  | zero =>
    intro k rem h
    have hrem : rem = [] := by
      cases rem with
      | nil => rfl
      | cons a l => simp at h
    rw [fetch_all_quotes_go]
    simp [hrem, fetch_quotes_batch]
  | succ n ih =>
    intro k rem h
    rw [fetch_all_quotes_go]
    by_cases hrem : rem = []
    · simp [hrem, fetch_quotes_batch]
    · have hb := (choice k).2.1
      simp only [MIN_BATCH_SIZE] at hb
      have hpos : 0 < rem.length := List.length_pos.mpr hrem
      simp only [hrem, dite_false]
      rw [ih (k + 1) (rem.drop (choice k).val)
        (by simp only [List.length_drop]; omega)]
      simp only [fetch_quotes_batch]
      rw [← List.filterMap_append, List.take_append_drop]

/-- `fetch_all_quotes` over any roster is the one-pass filterMap of the
per-ticker fetch. -/
lemma fetch_all_quotes_eq (oracle : FetchOracle) (choice : Nat → BatchChoice)
    (tickers : List String) :
    fetch_all_quotes oracle choice tickers = fetch_quotes_batch oracle tickers :=
  fetch_all_quotes_go_eq oracle choice tickers.length 1 tickers le_rfl

/-- Slicing does not change the emitted quote-upstream events either. -/
lemma fetch_all_events_go_eq (oracle : FetchOracle) (choice : Nat → BatchChoice) :
    ∀ (n batch_num : Nat) (remaining : List String), remaining.length ≤ n →
      fetch_all_events_go oracle choice batch_num remaining =
        fetch_batch_events oracle remaining := by
  intro n
  induction n with
  | zero =>
    intro k rem h
    have hrem : rem = [] := by
      cases rem with
      | nil => rfl
      | cons a l => simp at h
    rw [fetch_all_events_go]
    simp [hrem, fetch_batch_events]
  | succ n ih =>
    intro k rem h
    rw [fetch_all_events_go]
    by_cases hrem : rem = []
    · simp [hrem, fetch_batch_events]
    · have hb := (choice k).2.1
      simp only [MIN_BATCH_SIZE] at hb
      have hpos : 0 < rem.length := List.length_pos.mpr hrem
      simp only [hrem, dite_false]
      rw [ih (k + 1) (rem.drop (choice k).val)
        (by simp only [List.length_drop]; omega)]
      simp only [fetch_batch_events]
      rw [← List.flatMap_append, List.take_append_drop]

/-- The batches are consecutive slices that reassemble into the roster:
their concatenation is the roster itself. -/
lemma fetch_all_batches_join (choice : Nat → BatchChoice) :
    ∀ (n batch_num : Nat) (remaining : List String), remaining.length ≤ n →
      (fetch_all_batches choice batch_num remaining).flatten = remaining := by
  intro n
  induction n with
  | zero =>
    intro k rem h
    have hrem : rem = [] := by
      cases rem with
      | nil => rfl
      | cons a l => simp at h
    rw [fetch_all_batches]
    simp [hrem]
  | succ n ih =>
    intro k rem h
    rw [fetch_all_batches]
    by_cases hrem : rem = []
    · simp [hrem]
    · have hb := (choice k).2.1
      simp only [MIN_BATCH_SIZE] at hb
      have hpos : 0 < rem.length := List.length_pos.mpr hrem
      simp only [hrem, dite_false, List.flatten_cons]
      rw [ih (k + 1) (rem.drop (choice k).val)
        (by simp only [List.length_drop]; omega)]
      exact List.take_append_drop _ rem

/-! ### Lemmas about the per-ticker fetch -/

/-- Any quote returned by `fetch_ticker_price` carries the requested
symbol and some close value. -/
lemma fetch_ticker_price_shape (oracle : Nat → FetchOutcome) (sym : String) :
    ∀ (n rc : Nat), MAX_RETRIES - rc ≤ n →
      ∀ q, fetch_ticker_price oracle sym rc = some q →
        q.symbol = some sym ∧ ∃ c, q.close = some c := by
  intro n
  induction n with
  | zero =>
    intro rc h q hq
    rw [fetch_ticker_price] at hq
    have hrc : ¬ rc < MAX_RETRIES := by omega
    cases ho : oracle rc with
    | histClose c => rw [ho] at hq; cases hq; exact ⟨rfl, c, rfl⟩
    | prevClose c =>
      cases c with
      | none => rw [ho] at hq; cases hq
      | some c => rw [ho] at hq; cases hq; exact ⟨rfl, c, rfl⟩
    | error => rw [ho, if_neg hrc] at hq; cases hq
  | succ n ih =>
    intro rc h q hq
    rw [fetch_ticker_price] at hq
    cases ho : oracle rc with
    | histClose c => rw [ho] at hq; cases hq; exact ⟨rfl, c, rfl⟩
    | prevClose c =>
      cases c with
      | none => rw [ho] at hq; cases hq
      | some c => rw [ho] at hq; cases hq; exact ⟨rfl, c, rfl⟩
    | error =>
      rw [ho] at hq
      by_cases hrc : rc < MAX_RETRIES
      · rw [if_pos hrc] at hq
        exact ih (rc + 1) (by omega) q hq
      · rw [if_neg hrc] at hq; cases hq

/-- The attempt count is bounded: starting at retry count `rc`,
at most `MAX_RETRIES - rc + 1` attempts are made. -/
lemma fetch_ticker_attempts_le (oracle : Nat → FetchOutcome) :
    ∀ (n rc : Nat), MAX_RETRIES - rc ≤ n →
      fetch_ticker_attempts oracle rc ≤ n + 1 := by
  intro n
  induction n with
  | zero =>
    intro rc h
    rw [fetch_ticker_attempts]
    have hrc : ¬ rc < MAX_RETRIES := by omega
    cases ho : oracle rc with
    | histClose c => exact le_refl 1
    | prevClose c => exact le_refl 1
    | error =>
      show (if rc < MAX_RETRIES then 1 + fetch_ticker_attempts oracle (rc + 1)
        else 1) ≤ 0 + 1
      rw [if_neg hrc]
  | succ n ih =>
    intro rc h
    rw [fetch_ticker_attempts]
    cases ho : oracle rc with
    | histClose c => exact Nat.le_add_left 1 (n + 1)
    | prevClose c => exact Nat.le_add_left 1 (n + 1)
    -- (branches above: the match value is definitionally 1)
    | error =>
      show (if rc < MAX_RETRIES then 1 + fetch_ticker_attempts oracle (rc + 1)
        else 1) ≤ n + 1 + 1
      by_cases hrc : rc < MAX_RETRIES
      · rw [if_pos hrc]
        have := ih (rc + 1) (by omega)
        omega
      · rw [if_neg hrc]; omega

/-- If every attempt raises, the fetch returns `None`. -/
lemma fetch_ticker_price_all_error (oracle : Nat → FetchOutcome) (sym : String)
    (hall : ∀ k, oracle k = .error) :
    ∀ (n rc : Nat), MAX_RETRIES - rc ≤ n →
      fetch_ticker_price oracle sym rc = none := by
  intro n
  induction n with
  | zero =>
    intro rc h
    rw [fetch_ticker_price, hall rc, if_neg (by omega)]
  | succ n ih =>
    intro rc h
    rw [fetch_ticker_price, hall rc]
    by_cases hrc : rc < MAX_RETRIES
    · rw [if_pos hrc]
      exact ih (rc + 1) (by omega)
    · rw [if_neg hrc]

/-- Whether the fetch of ticker `t` ultimately succeeds. -/
def fetchSucceeds (oracle : FetchOracle) (t : String) : Bool :=
  (fetch_ticker_price (oracle t) t 0).isSome

/-- The symbols carried by a list of quotes (all quotes produced by the
fetcher carry one). -/
def quoteSymbols (quotes : List Quote) : List String :=
  quotes.filterMap Quote.symbol

/-- The symbols of the quotes collected over a ticker list are exactly
the tickers whose fetch succeeded, in order. -/
lemma quoteSymbols_fetch_quotes_batch (oracle : FetchOracle) :
    ∀ tickers : List String,
      quoteSymbols (fetch_quotes_batch oracle tickers) =
        tickers.filter (fetchSucceeds oracle) := by
  intro tickers
  induction tickers with
  | nil => rfl
  | cons t ts ih =>
    simp only [fetch_quotes_batch, List.filterMap_cons, quoteSymbols] at *
    cases hf : fetch_ticker_price (oracle t) t 0 with
    | none =>
      simp only [List.filter_cons, fetchSucceeds, hf, Option.isSome_none,
        Bool.false_eq_true, if_false]
      exact ih
    | some q =>
      obtain ⟨hsym, -⟩ :=
        fetch_ticker_price_shape (oracle t) t MAX_RETRIES 0 (by omega) q hf
      simp only [List.filter_cons, fetchSucceeds, hf, Option.isSome_some,
        if_true, List.filterMap_cons, hsym]
      exact congrArg (t :: ·) ih

/-! ### Lemmas about the row normalizer -/

/-- The symbols of a list of rows, in order. -/
def rowSymbols (rows : List StockPriceRow) : List String :=
  rows.map StockPriceRow.symbol

/-- The normalizer emits at most one row per input quote. -/
lemma build_rows_length_le (now : UTCTime) (quotes : List Quote) :
    (build_rows now quotes).length ≤ quotes.length := by
  simpa using List.length_filterMap_le _ quotes

/-- Every emitted row carries the run's calendar date, the run's
timestamp, a non-empty symbol and the close of its quote. -/
lemma build_rows_mem (now : UTCTime) (quotes : List Quote)
    (r : StockPriceRow) (hr : r ∈ build_rows now quotes) :
    r.trade_date = now.epochDay ∧ r.fetched_at = now ∧ r.symbol ≠ "" ∧
      ⟨some r.symbol, some r.close⟩ ∈ quotes := by
  simp only [build_rows, List.mem_filterMap] at hr
  obtain ⟨q, hq, hbuild⟩ := hr
  obtain ⟨qs, qc⟩ := q
  cases qs with
  | none => cases hbuild
  | some s =>
    cases qc with
    | none => cases hbuild
    | some c =>
      replace hbuild :
          (if s = "" then (none : Option StockPriceRow)
            else some ⟨s, now.epochDay, c, now⟩) = some r := hbuild
      by_cases hs : s = ""
      · rw [if_pos hs] at hbuild; cases hbuild
      · rw [if_neg hs] at hbuild
        cases hbuild
        exact ⟨rfl, rfl, hs, hq⟩

/-- Over a full fetched roster, the emitted row symbols are exactly the
non-empty roster tickers whose fetch succeeded, in roster order. -/
lemma rowSymbols_build_rows (oracle : FetchOracle) (now : UTCTime) :
    ∀ tickers : List String,
      rowSymbols (build_rows now (fetch_quotes_batch oracle tickers)) =
        tickers.filter fun t => fetchSucceeds oracle t && !(t = "") := by
  intro tickers
  induction tickers with
  | nil => rfl
  | cons t ts ih =>
    simp only [fetch_quotes_batch, List.filterMap_cons] at *
    cases hf : fetch_ticker_price (oracle t) t 0 with
    | none =>
      simp only [List.filter_cons, fetchSucceeds, hf, Option.isSome_none,
        Bool.false_and, Bool.false_eq_true, if_false]
      exact ih
    | some q =>
      obtain ⟨hsym, c, hclose⟩ :=
        fetch_ticker_price_shape (oracle t) t MAX_RETRIES 0 (by omega) q hf
      simp only [List.filter_cons, fetchSucceeds, hf, Option.isSome_some,
        Bool.true_and]
      by_cases ht : t = ""
      · simp only [build_rows, List.filterMap_cons, hsym, hclose, ht,
          if_pos rfl, Bool.not_true, Bool.false_eq_true, if_false]
        simpa [ht] using ih
      · simp only [ht, Bool.not_false, if_true]
        simp only [build_rows, List.filterMap_cons, hsym, hclose, if_neg ht,
          rowSymbols, List.map_cons]
        exact congrArg (t :: ·) ih

/-! ### Lemmas about the store merge -/

/-- Key sameness is reflexive. -/
lemma sameKey_refl (a : StockPriceRow) : sameKey a a = true := by
  simp [sameKey]

/-- Key sameness is symmetric. -/
lemma sameKey_symm (a b : StockPriceRow) : sameKey a b = sameKey b a := by
  simp only [sameKey]
  by_cases h1 : a.symbol = b.symbol <;> by_cases h2 : a.trade_date = b.trade_date <;>
    simp [h1, h2, eq_comm]

/-- Key sameness is transitive. -/
lemma sameKey_trans {a b c : StockPriceRow} (h1 : sameKey a b = true)
    (h2 : sameKey b c = true) : sameKey a c = true := by
  simp only [sameKey, Bool.and_eq_true, decide_eq_true_eq] at *
  exact ⟨h1.1.trans h2.1, h1.2.trans h2.2⟩

/-- Replacing, in a store, every row keyed like `y` by `y` does not
disturb the rows keyed like `r`, when `r` and `y` have different keys. -/
lemma filter_map_replace (r y : StockPriceRow) (hry : sameKey r y = false) :
    ∀ store : List StockPriceRow,
      (store.map fun s => if sameKey y s then y else s).filter (sameKey r) =
        store.filter (sameKey r) := by
  intro store
  induction store with
  | nil => rfl
  | cons s ss ih =>
    simp only [List.map_cons, List.filter_cons]
    cases hys : sameKey y s with
    | true =>
      have hrs : sameKey r s = false := by
        cases hrs : sameKey r s with
        | false => rfl
        | true =>
          have : sameKey r y = true :=
            sameKey_trans hrs (by rw [sameKey_symm]; exact hys)
          rw [this] at hry; cases hry
      simp only [hys, if_true, hry, hrs, Bool.false_eq_true, if_false]
      exact ih
    | false =>
      simp only [hys, Bool.false_eq_true, if_false]
      cases hrs : sameKey r s with
      | true => simp only [hrs, if_true]; exact congrArg (s :: ·) ih
      | false => simp only [hrs, Bool.false_eq_true, if_false]; exact ih

/-- Merging a row whose key differs from `r`'s does not disturb the
stored rows with `r`'s key. -/
lemma filter_store_merge_one_other (r y : StockPriceRow)
    (hry : sameKey r y = false) (store : List StockPriceRow) :
    (store_merge_one store y).filter (sameKey r) = store.filter (sameKey r) := by
  rw [store_merge_one]
  by_cases hany : store.any (sameKey y) = true
  · rw [if_pos hany]
    exact filter_map_replace r y hry store
  · rw [if_neg hany, List.filter_append]
    simp [hry]

/-- A store with no row keyed like `r` contributes nothing to the filter
for `r`'s key, even after the replace map. -/
lemma filter_map_replace_none (r : StockPriceRow) :
    ∀ ss : List StockPriceRow, (∀ b ∈ ss, sameKey r b = false) →
      (ss.map fun s => if sameKey r s then r else s).filter (sameKey r) = [] := by
  intro ss
  induction ss with
  | nil => intro _; rfl
  | cons b bs ih =>
    intro hall
    have hb := hall b (List.mem_cons_self b bs)
    simp only [List.map_cons, List.filter_cons, hb, Bool.false_eq_true, if_false]
    exact ih fun x hx => hall x (List.mem_cons_of_mem b hx)

/-- After merging `r`, the stored rows keyed like `r` are exactly `[r]`. -/
lemma filter_store_merge_one_self (r : StockPriceRow) :
    ∀ store : List StockPriceRow, KeysUnique store →
      (store_merge_one store r).filter (sameKey r) = [r] := by
  intro store hU
  rw [store_merge_one]
  by_cases hany : store.any (sameKey r) = true
  · rw [if_pos hany]
    induction store with
    | nil => cases hany
    | cons s ss ih =>
      have hhead : ∀ b ∈ ss, sameKey s b = false := (List.pairwise_cons.mp hU).1
      have hss : KeysUnique ss := (List.pairwise_cons.mp hU).2
      simp only [List.map_cons, List.filter_cons]
      cases hrs : sameKey r s with
      | true =>
        simp only [hrs, if_true, sameKey_refl]
        have hnone : ∀ b ∈ ss, sameKey r b = false := by
          intro b hb
          cases hrb : sameKey r b with
          | false => rfl
          | true =>
            have hsb : sameKey s b = true :=
              sameKey_trans (by rw [sameKey_symm]; exact hrs) hrb
            rw [hhead b hb] at hsb; cases hsb
        rw [filter_map_replace_none r ss hnone]
      | false =>
        simp only [hrs, Bool.false_eq_true, if_false]
        have hany' : ss.any (sameKey r) = true := by
          simp only [List.any_cons, hrs, Bool.false_or] at hany
          exact hany
        exact ih hss hany'
  · rw [if_neg hany, List.filter_append]
    have hnone : store.filter (sameKey r) = [] := by
      rw [List.filter_eq_nil_iff]
      intro b hb hrb
      exact hany (List.any_eq_true.mpr ⟨b, hb, hrb⟩)
    rw [hnone]
    simp [sameKey_refl]

/-- Merging one row preserves key uniqueness of the store. -/
lemma store_merge_one_keysUnique (r : StockPriceRow) :
    ∀ store : List StockPriceRow, KeysUnique store →
      KeysUnique (store_merge_one store r) := by
  intro store hU
  rw [store_merge_one]
  by_cases hany : store.any (sameKey r) = true
  · rw [if_pos hany]
    refine List.Pairwise.map _ ?_ hU
    intro a b hab
    cases hra : sameKey r a with
    | true =>
      cases hrb : sameKey r b with
      | true =>
        have : sameKey a b = true :=
          sameKey_trans (by rw [sameKey_symm]; exact hra) hrb
        simp [this] at hab
      | false =>
        simp only [hra, if_true, hrb, Bool.false_eq_true, if_false]
    | false =>
      cases hrb : sameKey r b with
      | true =>
        simp only [hra, Bool.false_eq_true, if_false, hrb, if_true]
        cases har : sameKey a r with
        | false => rfl
        | true =>
          have : sameKey r a = true := by rw [sameKey_symm]; exact har
          rw [this] at hra; cases hra
      | false =>
        simp only [hra, hrb, Bool.false_eq_true, if_false]
        exact hab
  · rw [if_neg hany]
    rw [KeysUnique, List.pairwise_append]
    refine ⟨hU, List.pairwise_singleton _ r, ?_⟩
    intro a ha b hb
    rw [List.mem_singleton] at hb
    subst hb
    cases har : sameKey a b with
    | false => rfl
    | true =>
      have : sameKey b a = true := by rw [sameKey_symm]; exact har
      exact absurd (List.any_eq_true.mpr ⟨a, ha, this⟩) hany

/-- Merging a whole batch preserves key uniqueness of the store. -/
lemma store_merge_keysUnique (rows : List StockPriceRow) :
    ∀ store : List StockPriceRow, KeysUnique store →
      KeysUnique (store_merge store rows) := by
  induction rows with
  | nil => intro store hU; exact hU
  | cons x xs ih =>
    intro store hU
    exact ih (store_merge_one store x) (store_merge_one_keysUnique x store hU)

/-- Merging rows none of which is keyed like `r` leaves the stored rows
with `r`'s key unchanged. -/
lemma filter_store_merge_preserve (r : StockPriceRow) :
    ∀ (xs : List StockPriceRow) (store : List StockPriceRow),
      (∀ b ∈ xs, sameKey r b = false) →
      (store_merge store xs).filter (sameKey r) = store.filter (sameKey r) := by
  intro xs
  induction xs with
  | nil => intro store _; rfl
  | cons x xs ih =>
    intro store hall
    have hx := hall x (List.mem_cons_self x xs)
    calc (store_merge (store_merge_one store x) xs).filter (sameKey r)
        = (store_merge_one store x).filter (sameKey r) :=
          ih _ fun b hb => hall b (List.mem_cons_of_mem x hb)
      _ = store.filter (sameKey r) := filter_store_merge_one_other r x hx store

/-- After merging a key-unique batch into a key-unique store, the stored
rows keyed like any batch row `r` are exactly `[r]`: the batch row wins. -/
lemma filter_store_merge_mem (r : StockPriceRow) :
    ∀ (rows : List StockPriceRow) (store : List StockPriceRow),
      KeysUnique store → rows.Pairwise (fun a b => sameKey a b = false) →
      r ∈ rows → (store_merge store rows).filter (sameKey r) = [r] := by
  intro rows
  induction rows with
  | nil => intro store _ _ hmem; cases hmem
  | cons x xs ih =>
    intro store hU hP hmem
    have hx : ∀ b ∈ xs, sameKey x b = false := (List.pairwise_cons.mp hP).1
    have hxs := (List.pairwise_cons.mp hP).2
    cases List.mem_cons.mp hmem with
    | inl heq =>
      subst heq
      calc (store_merge (store_merge_one store r) xs).filter (sameKey r)
          = (store_merge_one store r).filter (sameKey r) :=
            filter_store_merge_preserve r xs _ hx
        _ = [r] := filter_store_merge_one_self r store hU
    | inr hmem' =>
      exact ih (store_merge_one store x)
        (store_merge_one_keysUnique x store hU) hxs hmem'

/-- Rows with pairwise-distinct symbols have pairwise-distinct keys. -/
lemma keysPairwise_of_symbols_nodup (rows : List StockPriceRow)
    (h : (rowSymbols rows).Nodup) :
    rows.Pairwise fun a b => sameKey a b = false := by
  rw [rowSymbols, List.Nodup, List.pairwise_map] at h
  exact h.imp fun hab => by simp [sameKey, hab]

/-! ### Lemmas about event traces -/

/-- Every event of a batch fetch is a quote-upstream call. -/
lemma fetch_batch_events_netFetch (oracle : FetchOracle) (tickers : List String)
    (e : Event) (he : e ∈ fetch_batch_events oracle tickers) :
    ∃ s, e = .netFetch s := by
  simp only [fetch_batch_events, List.mem_flatMap, fetch_ticker_events] at he
  obtain ⟨t, -, hmem⟩ := he
  exact ⟨t, List.eq_of_mem_replicate hmem⟩

/-- Every event of the batched fetch loop is a quote-upstream call. -/
lemma fetch_all_events_netFetch (oracle : FetchOracle)
    (choice : Nat → BatchChoice) (tickers : List String)
    (e : Event) (he : e ∈ fetch_all_events oracle choice tickers) :
    ∃ s, e = .netFetch s := by
  rw [fetch_all_events,
    fetch_all_events_go_eq oracle choice tickers.length 1 tickers le_rfl] at he
  exact fetch_batch_events_netFetch oracle tickers e he

/-! ### Branch reductions of `main_run` -/

/-- With no rows built, `main()` returns early after only the fetch
calls. -/
lemma main_run_noRows (env : Env) (oracle : FetchOracle)
    (choice : Nat → BatchChoice) (now : UTCTime) (us ds : Nat)
    (store : List StockPriceRow)
    (hrows : build_rows now (fetch_all_quotes oracle choice TICKERS) = []) :
    main_run env oracle choice now us ds store =
      (.noRows, fetch_all_events oracle choice TICKERS, store) := by
  rw [main_run]
  simp [hrows]

/-- With rows built and a secret missing, `main()` aborts with the
configuration error, raised by the upsert writer after the fetch calls
but before any store call. -/
lemma main_run_config (env : Env) (oracle : FetchOracle)
    (choice : Nat → BatchChoice) (now : UTCTime) (us ds : Nat)
    (store : List StockPriceRow)
    (hmiss : missingConfig env = true)
    (hrows : build_rows now (fetch_all_quotes oracle choice TICKERS) ≠ []) :
    main_run env oracle choice now us ds store =
      (.fatalConfig,
       fetch_all_events oracle choice TICKERS ++ [Event.configError],
       store) := by
  rw [main_run]
  simp only [if_neg hrows]
  rw [upsert_to_supabase, if_pos hmiss]

/-- With rows built, secrets present and a failing upsert response,
`main()` aborts after the store `POST`. -/
lemma main_run_httpError (env : Env) (oracle : FetchOracle)
    (choice : Nat → BatchChoice) (now : UTCTime) (us ds : Nat)
    (store : List StockPriceRow)
    (henv : missingConfig env = false) (hus : 300 ≤ us)
    (hrows : build_rows now (fetch_all_quotes oracle choice TICKERS) ≠ []) :
    main_run env oracle choice now us ds store =
      (.fatalUpsert us,
       fetch_all_events oracle choice TICKERS ++ [Event.netUpsert],
       store) := by
  rw [main_run]
  simp only [if_neg hrows]
  rw [upsert_to_supabase, if_neg (by rw [henv]; exact Bool.false_ne_true),
    if_pos hus]

/-- With rows built, secrets present and a successful upsert, `main()`
merges the rows, prunes, and returns success whatever the pruner's
response status. -/
lemma main_run_ok (env : Env) (oracle : FetchOracle)
    (choice : Nat → BatchChoice) (now : UTCTime) (us ds : Nat)
    (store : List StockPriceRow)
    (henv : missingConfig env = false) (hus : us < 300)
    (hrows : build_rows now (fetch_all_quotes oracle choice TICKERS) ≠ []) :
    main_run env oracle choice now us ds store =
      (.success,
       fetch_all_events oracle choice TICKERS ++ [Event.netUpsert] ++
         [Event.netPruneCount, Event.netPruneDelete],
       store_delete_before
         (store_merge store
           (build_rows now (fetch_all_quotes oracle choice TICKERS)))
         ((now.subDays 300).epochDay)) := by
  rw [main_run]
  simp only [if_neg hrows]
  rw [upsert_to_supabase, if_neg (by rw [henv]; exact Bool.false_ne_true),
    if_neg (by omega)]
  rw [cleanup_old_stock_prices,
    if_neg (by rw [henv]; exact Bool.false_ne_true)]
  by_cases hds : 300 ≤ ds
  · rw [if_pos hds]
  · rw [if_neg hds]

/-! ### Concrete evaluations -/

/-- Under `oracleOK` every fetch succeeds. -/
lemma fetchSucceeds_oracleOK (t : String) : fetchSucceeds oracleOK t = true := by
  rw [fetchSucceeds, fetch_ticker_price]
  rfl

/-- Under `oracleOK` every fetch makes exactly one attempt. -/
lemma attempts_oracleOK (t : String) :
    fetch_ticker_attempts (oracleOK t) 0 = 1 := by
  rw [fetch_ticker_attempts]
  rfl

/-- Under `oracleSPYFails`, every attempt for `"SPY"` raises. -/
lemma oracleSPYFails_SPY (k : Nat) :
    oracleSPYFails "SPY" k = FetchOutcome.error := by
  rw [oracleSPYFails]
  simp

/-- Under `oracleSPYFails`, the fetch of `"SSO"` succeeds. -/
lemma fetchSucceeds_oracleSPYFails_SSO :
    fetchSucceeds oracleSPYFails "SSO" = true := by
  rw [fetchSucceeds, fetch_ticker_price]
  rfl

/-- The standard all-success run builds a non-empty row batch. -/
lemma rows_oracleOK_ne :
    build_rows now₀ (fetch_all_quotes oracleOK choiceTwo TICKERS) ≠ [] := by
  intro h
  have hs := rowSymbols_build_rows oracleOK now₀ TICKERS
  rw [← fetch_all_quotes_eq oracleOK choiceTwo, h] at hs
  have hmem : "SPY" ∈ TICKERS.filter
      fun t => fetchSucceeds oracleOK t && !(t = "") := by
    rw [List.mem_filter]
    refine ⟨by decide, ?_⟩
    rw [fetchSucceeds_oracleOK]
    rfl
  rw [← hs] at hmem
  cases hmem

/-- The run in which `"SPY"` permanently fails still builds a non-empty
row batch. -/
lemma rows_oracleSPYFails_ne :
    build_rows now₀ (fetch_all_quotes oracleSPYFails choiceTwo TICKERS) ≠ [] := by
  intro h
  have hs := rowSymbols_build_rows oracleSPYFails now₀ TICKERS
  rw [← fetch_all_quotes_eq oracleSPYFails choiceTwo, h] at hs
  have hmem : "SSO" ∈ TICKERS.filter
      fun t => fetchSucceeds oracleSPYFails t && !(t = "") := by
    rw [List.mem_filter]
    refine ⟨by decide, ?_⟩
    rw [fetchSucceeds_oracleSPYFails_SSO]
    rfl
  rw [← hs] at hmem
  cases hmem

/-- The quote-upstream events of the standard all-success run: one call
per roster ticker, in roster order. -/
lemma events_oracleOK :
    fetch_all_events oracleOK choiceTwo TICKERS =
      TICKERS.map Event.netFetch := by
  rw [fetch_all_events,
    fetch_all_events_go_eq oracleOK choiceTwo TICKERS.length 1 TICKERS le_rfl]
  rw [fetch_batch_events]
  have : ∀ t : String, fetch_ticker_events (oracleOK t) t = [.netFetch t] := by
    intro t
    rw [fetch_ticker_events, attempts_oracleOK]
    rfl
  simp only [this]
  induction TICKERS with
  | nil => rfl
  | cons t ts ih => simp only [List.flatMap_cons, List.map_cons, ih]; rfl

/-! ### Claim theorems -/

/-- C9: the recursive per-instrument fetch always terminates: for every
outcome sequence and symbol it makes at most `MAX_RETRIES + 1 = 4`
attempts, and when every attempt raises it stops once the retry count
reaches `MAX_RETRIES` and returns `None`. -/
theorem C9_fetch_terminates (oracle : Nat → FetchOutcome) (sym : String) :
    MAX_RETRIES + 1 = 4 ∧
    fetch_ticker_attempts oracle 0 ≤ MAX_RETRIES + 1 ∧
    ((∀ k, oracle k = .error) →
      fetch_ticker_attempts oracle 0 = MAX_RETRIES + 1 ∧
      fetch_ticker_price oracle sym 0 = none) := by
  refine ⟨rfl, fetch_ticker_attempts_le oracle MAX_RETRIES 0 (by omega), ?_⟩
  intro hall
  constructor
  · simp [fetch_ticker_attempts, hall, MAX_RETRIES]
  · exact fetch_ticker_price_all_error oracle sym hall MAX_RETRIES 0 (by omega)

/-- Witness for C9 at the all-error outcome sequence and symbol
`"SPY"`. -/
theorem C9_witness :
    fetch_ticker_attempts (fun _ => FetchOutcome.error) 0 ≤ MAX_RETRIES + 1 ∧
    fetch_ticker_price (fun _ => FetchOutcome.error) "SPY" 0 = none :=
  ⟨(C9_fetch_terminates (fun _ => FetchOutcome.error) "SPY").2.1,
   ((C9_fetch_terminates (fun _ => FetchOutcome.error) "SPY").2.2
     fun _ => rfl).2⟩

/-- C8: every row emitted by one run of the normalizer carries the run
timestamp's UTC calendar date as `trade_date` and the run timestamp
itself as `fetched_at`, so all rows of a run share both. -/
theorem C8_single_trade_date (now : UTCTime) (quotes : List Quote)
    (r : StockPriceRow) (hr : r ∈ build_rows now quotes) :
    r.trade_date = now.epochDay ∧ r.fetched_at = now :=
  ⟨(build_rows_mem now quotes r hr).1, (build_rows_mem now quotes r hr).2.1⟩

/-- Witness for C8 at a concrete run instant and quote list. -/
theorem C8_witness :
    (⟨"SPY", 20000, 100, ⟨20000, 3600⟩⟩ : StockPriceRow) ∈
      build_rows ⟨20000, 3600⟩ [⟨some "SPY", some 100⟩] ∧
    (⟨"SPY", 20000, 100, ⟨20000, 3600⟩⟩ : StockPriceRow).trade_date = 20000 ∧
    (⟨"SPY", 20000, 100, ⟨20000, 3600⟩⟩ : StockPriceRow).fetched_at =
      ⟨20000, 3600⟩ :=
  ⟨by decide,
   (C8_single_trade_date ⟨20000, 3600⟩ [⟨some "SPY", some 100⟩] _ (by decide)).1,
   (C8_single_trade_date ⟨20000, 3600⟩ [⟨some "SPY", some 100⟩] _ (by decide)).2⟩

/-- C3 counterexample: the normalizer checks only that a close is
present, not that it is positive: a quote whose close is `-1` (as
delivered by a fetch whose history reports `-1`) is emitted as a row with
the non-positive close `-1`, refuting "every emitted row has a finite
positive close". -/
theorem C3_counterexample :
    fetch_ticker_price (fun _ => FetchOutcome.histClose (-1)) "SPY" 0 =
      some ⟨some "SPY", some (-1)⟩ ∧
    build_rows ⟨20000, 0⟩ [⟨some "SPY", some (-1)⟩] =
      [⟨"SPY", 20000, -1, ⟨20000, 0⟩⟩] ∧
    ¬ (0 < (⟨"SPY", 20000, -1, ⟨20000, 0⟩⟩ : StockPriceRow).close) := by
  refine ⟨?_, by decide, by decide⟩
  simp [fetch_ticker_price]

/-- C3 as amended: for every roster the normalizer emits at most one row
per roster instrument, and every emitted row has a non-null (non-empty)
symbol and a present close; positivity of the close is not checked. -/
theorem C3_row_count_and_shape (oracle : FetchOracle)
    (choice : Nat → BatchChoice) (tickers : List String) (now : UTCTime) :
    (build_rows now (fetch_all_quotes oracle choice tickers)).length ≤
      tickers.length ∧
    ∀ r ∈ build_rows now (fetch_all_quotes oracle choice tickers),
      r.symbol ≠ "" := by
  constructor
  · calc (build_rows now (fetch_all_quotes oracle choice tickers)).length
        ≤ (fetch_all_quotes oracle choice tickers).length :=
          build_rows_length_le now _
      _ ≤ tickers.length := by
          rw [fetch_all_quotes_eq, fetch_quotes_batch]
          simpa using List.length_filterMap_le _ tickers
  · intro r hr
    exact (build_rows_mem now _ r hr).2.2.1

/-- Witness for C3 as amended, at a one-ticker roster. -/
theorem C3_witness :
    (build_rows now₀ (fetch_all_quotes oracleOK choiceTwo ["SPY"])).length ≤ 1 ∧
    ∀ r ∈ build_rows now₀ (fetch_all_quotes oracleOK choiceTwo ["SPY"]),
      r.symbol ≠ "" :=
  C3_row_count_and_shape oracleOK choiceTwo ["SPY"] now₀

/-- C4 counterexample: no randomized jitter is added to the retry
backoff sleeps: under two different random streams, a call that fails
every attempt sleeps the same fixed schedule `[5, 10, 20]`, refuting
"randomized jitter is added to every sleep interval, including the retry
backoff sleeps". -/
theorem C4_counterexample :
    fetch_ticker_sleeps (fun _ => 0) (fun _ => FetchOutcome.error) 0 =
      [5, 10, 20] ∧
    fetch_ticker_sleeps (fun _ => 1 / 2) (fun _ => FetchOutcome.error) 0 =
      [5, 10, 20] ∧
    (fun _ => (0 : ℚ)) ≠ (fun _ : Nat => (1 : ℚ) / 2) := by
  refine ⟨?_, ?_, ?_⟩
  · simp [fetch_ticker_sleeps, MAX_RETRIES, retry_delay, INITIAL_RETRY_DELAY]
    norm_num
  · simp [fetch_ticker_sleeps, MAX_RETRIES, retry_delay, INITIAL_RETRY_DELAY]
    norm_num
  · intro h
    have := congrFun h 0
    norm_num at this

/-- C4 as amended: every failed call is retried up to a bounded attempt
count (at most `MAX_RETRIES + 1 = 4` attempts) with exponential backoff
whose delay doubles per attempt; randomized jitter is applied to the
inter-group and inter-instrument pauses, but the retry backoff sleeps
are deterministic (`5 * 2 ^ k` seconds), independent of the random
stream. -/
theorem C4_backoff_and_jitter :
    (∀ k, retry_delay (k + 1) = 2 * retry_delay k) ∧
    (∀ oracle : Nat → FetchOutcome,
      fetch_ticker_attempts oracle 0 ≤ MAX_RETRIES + 1) ∧
    (∀ r₁ r₂ : ℚ, r₁ ≠ r₂ → inter_batch_delay r₁ ≠ inter_batch_delay r₂) ∧
    (∀ r₁ r₂ : ℚ, r₁ ≠ r₂ → inter_ticker_delay r₁ ≠ inter_ticker_delay r₂) ∧
    (∀ (rand₁ rand₂ : Nat → ℚ) (oracle : Nat → FetchOutcome) (rc : Nat),
      fetch_ticker_sleeps rand₁ oracle rc = fetch_ticker_sleeps rand₂ oracle rc) := by
  refine ⟨?_, ?_, ?_, ?_, ?_⟩
  · intro k
    rw [retry_delay, retry_delay, pow_succ]
    ring
  · intro oracle
    exact fetch_ticker_attempts_le oracle MAX_RETRIES 0 (by omega)
  · intro r₁ r₂ hne h
    apply hne
    simp only [inter_batch_delay, uniform, MIN_DELAY, MAX_DELAY] at h
    linarith
  · intro r₁ r₂ hne h
    apply hne
    simp only [inter_ticker_delay, uniform] at h
    linarith
  · intro rand₁ rand₂ oracle rc
    have : ∀ (n rc : Nat), MAX_RETRIES - rc ≤ n →
        fetch_ticker_sleeps rand₁ oracle rc =
          fetch_ticker_sleeps rand₂ oracle rc := by
      intro n
      induction n with
      | zero =>
        intro rc h
        conv_lhs => rw [fetch_ticker_sleeps]
        conv_rhs => rw [fetch_ticker_sleeps]
        cases oracle rc with
        | error =>
          show (if rc < MAX_RETRIES then _ else []) =
            (if rc < MAX_RETRIES then _ else [])
          rw [if_neg (by omega : ¬ rc < MAX_RETRIES)]
          rw [if_neg (by omega : ¬ rc < MAX_RETRIES)]
        | histClose c => rfl
        | prevClose c => rfl
      | succ n ih =>
        intro rc h
        conv_lhs => rw [fetch_ticker_sleeps]
        conv_rhs => rw [fetch_ticker_sleeps]
        cases oracle rc with
        | error =>
          show (if rc < MAX_RETRIES then
              retry_delay rc :: fetch_ticker_sleeps rand₁ oracle (rc + 1)
            else []) =
            (if rc < MAX_RETRIES then
              retry_delay rc :: fetch_ticker_sleeps rand₂ oracle (rc + 1)
            else [])
          by_cases hrc : rc < MAX_RETRIES
          · rw [if_pos hrc, if_pos hrc, ih (rc + 1) (by omega)]
          · rw [if_neg hrc, if_neg hrc]
        | histClose c => rfl
        | prevClose c => rfl
    exact this MAX_RETRIES rc (by omega)

/-- Witness for C4 as amended at concrete attempts, draws and streams. -/
theorem C4_witness :
    retry_delay 1 = 2 * retry_delay 0 ∧
    fetch_ticker_attempts (fun _ => FetchOutcome.error) 0 ≤ MAX_RETRIES + 1 ∧
    inter_batch_delay 0 ≠ inter_batch_delay 1 ∧
    inter_ticker_delay 0 ≠ inter_ticker_delay 1 ∧
    fetch_ticker_sleeps (fun _ => 0) (fun _ => FetchOutcome.error) 0 =
      fetch_ticker_sleeps (fun _ => 1) (fun _ => FetchOutcome.error) 0 :=
  ⟨C4_backoff_and_jitter.1 0,
   C4_backoff_and_jitter.2.1 (fun _ => FetchOutcome.error),
   C4_backoff_and_jitter.2.2.1 0 1 (by norm_num),
   C4_backoff_and_jitter.2.2.2.1 0 1 (by norm_num),
   C4_backoff_and_jitter.2.2.2.2 (fun _ => 0) (fun _ => 1)
     (fun _ => FetchOutcome.error) 0⟩

/-- C7: with the secrets present, the pruner deletes exactly the rows
whose `trade_date` is strictly before `run date - 300 days`; on a store
holding rows dated today, 299 days ago and 301 days ago, only the
301-day-old row is deleted. -/
theorem C7_prune_cutoff (env : Env) (now : UTCTime) (deleteStatus : Nat)
    (store : List StockPriceRow) (henv : missingConfig env = false) :
    (cleanup_old_stock_prices env now deleteStatus store).2.2 =
      store.filter (fun r => ¬ r.trade_date < now.epochDay - 300) ∧
    ∀ sToday s299 s301 : StockPriceRow,
      sToday.trade_date = now.epochDay →
      s299.trade_date = now.epochDay - 299 →
      s301.trade_date = now.epochDay - 301 →
      (cleanup_old_stock_prices env now deleteStatus
        [sToday, s299, s301]).2.2 = [sToday, s299] := by
  have hgen : ∀ st : List StockPriceRow,
      (cleanup_old_stock_prices env now deleteStatus st).2.2 =
        st.filter (fun r => ¬ r.trade_date < now.epochDay - 300) := by
    intro st
    rw [cleanup_old_stock_prices]
    rw [if_neg (by rw [henv]; exact Bool.false_ne_true)]
    by_cases hds : 300 ≤ deleteStatus
    · rw [if_pos hds]
      rfl
    · rw [if_neg hds]
      rfl
  refine ⟨hgen store, ?_⟩
  intro sToday s299 s301 h1 h2 h3
  rw [hgen [sToday, s299, s301]]
  rw [List.filter_cons, List.filter_cons, List.filter_cons]
  rw [if_pos (by simp only [h1, decide_eq_true_eq]; omega)]
  rw [if_pos (by simp only [h2, decide_eq_true_eq]; omega)]
  rw [if_neg (by simp only [h3, decide_eq_true_eq]; omega)]
  rfl

/-- Witness for C7 at a concrete environment, run date and store. -/
theorem C7_witness :
    missingConfig envOK = false ∧
    (cleanup_old_stock_prices envOK now₀ 200
      [⟨"A", 20000, 1, now₀⟩, ⟨"B", 20000 - 299, 1, now₀⟩,
       ⟨"C", 20000 - 301, 1, now₀⟩]).2.2 =
      [⟨"A", 20000, 1, now₀⟩, ⟨"B", 20000 - 299, 1, now₀⟩] :=
  ⟨by decide,
   (C7_prune_cutoff envOK now₀ 200
       [⟨"A", 20000, 1, now₀⟩, ⟨"B", 20000 - 299, 1, now₀⟩,
        ⟨"C", 20000 - 301, 1, now₀⟩] (by decide)).2
     ⟨"A", 20000, 1, now₀⟩ ⟨"B", 20000 - 299, 1, now₀⟩
     ⟨"C", 20000 - 301, 1, now₀⟩ rfl (by decide) (by decide)⟩

/-- C10: for every duplicate-free roster, the batch loop slices the
roster into consecutive non-overlapping batches whose concatenation is
the roster (each instrument attempted exactly once, in roster order),
and the symbols of the returned quotes are the successfully fetched
tickers in roster order: a duplicate-free subsequence of the roster. -/
theorem C10_batches_partition (oracle : FetchOracle)
    (choice : Nat → BatchChoice) (tickers : List String)
    (hnd : tickers.Nodup) :
    (fetch_all_batches choice 1 tickers).flatten = tickers ∧
    quoteSymbols (fetch_all_quotes oracle choice tickers) =
      tickers.filter (fetchSucceeds oracle) ∧
    (quoteSymbols (fetch_all_quotes oracle choice tickers)).Sublist tickers ∧
    (quoteSymbols (fetch_all_quotes oracle choice tickers)).Nodup := by
  have hsym : quoteSymbols (fetch_all_quotes oracle choice tickers) =
      tickers.filter (fetchSucceeds oracle) := by
    rw [fetch_all_quotes_eq]
    exact quoteSymbols_fetch_quotes_batch oracle tickers
  refine ⟨fetch_all_batches_join choice tickers.length 1 tickers le_rfl,
    hsym, ?_, ?_⟩
  · rw [hsym]; exact List.filter_sublist tickers
  · rw [hsym]; exact hnd.filter _

/-- Witness for C10 at a concrete roster and draws. -/
theorem C10_witness :
    (fetch_all_batches choiceTwo 1 TICKERS).flatten = TICKERS ∧
    quoteSymbols (fetch_all_quotes oracleOK choiceTwo TICKERS) =
      TICKERS.filter (fetchSucceeds oracleOK) ∧
    (quoteSymbols (fetch_all_quotes oracleOK choiceTwo TICKERS)).Sublist
      TICKERS ∧
    (quoteSymbols (fetch_all_quotes oracleOK choiceTwo TICKERS)).Nodup :=
  C10_batches_partition oracleOK choiceTwo TICKERS (by decide)

/-- C2: the upsert is a last-write-wins merge keyed by
`(symbol, trade_date)`: starting from any key-unique store, merging the
row batches of two pipeline runs over the roster (same calendar date)
leaves a key-unique store — never duplicate rows for a key — in which,
for every row `r` of the second run, the unique stored row with `r`'s
key is `r` itself, carrying the second run's `close` and `fetched_at`. -/
theorem C2_upsert_last_write_wins (store₀ : List StockPriceRow)
    (oracle₁ oracle₂ : FetchOracle) (choice₁ choice₂ : Nat → BatchChoice)
    (now₁ now₂ : UTCTime) (hdate : now₁.epochDay = now₂.epochDay)
    (hU : KeysUnique store₀) :
    KeysUnique (store_merge (store_merge store₀
      (build_rows now₁ (fetch_all_quotes oracle₁ choice₁ TICKERS)))
      (build_rows now₂ (fetch_all_quotes oracle₂ choice₂ TICKERS))) ∧
    ∀ r ∈ build_rows now₂ (fetch_all_quotes oracle₂ choice₂ TICKERS),
      (store_merge (store_merge store₀
        (build_rows now₁ (fetch_all_quotes oracle₁ choice₁ TICKERS)))
        (build_rows now₂ (fetch_all_quotes oracle₂ choice₂ TICKERS))).filter
        (sameKey r) = [r] := by
  have hU₁ : KeysUnique (store_merge store₀
      (build_rows now₁ (fetch_all_quotes oracle₁ choice₁ TICKERS))) :=
    store_merge_keysUnique _ store₀ hU
  have hP₂ : (build_rows now₂
      (fetch_all_quotes oracle₂ choice₂ TICKERS)).Pairwise
      fun a b => sameKey a b = false := by
    apply keysPairwise_of_symbols_nodup
    rw [fetch_all_quotes_eq, rowSymbols_build_rows]
    exact List.Nodup.filter _ (by decide)
  exact ⟨store_merge_keysUnique _ _ hU₁,
    fun r hr => filter_store_merge_mem r _ _ hU₁ hP₂ hr⟩

/-- Witness for C2 at an empty initial store and concrete runs. -/
theorem C2_witness :
    KeysUnique (store_merge (store_merge []
      (build_rows now₀ (fetch_all_quotes oracleOK choiceTwo TICKERS)))
      (build_rows now₀ (fetch_all_quotes oracleOK choiceTwo TICKERS))) ∧
    ∀ r ∈ build_rows now₀ (fetch_all_quotes oracleOK choiceTwo TICKERS),
      (store_merge (store_merge []
        (build_rows now₀ (fetch_all_quotes oracleOK choiceTwo TICKERS)))
        (build_rows now₀ (fetch_all_quotes oracleOK choiceTwo TICKERS))).filter
        (sameKey r) = [r] :=
  C2_upsert_last_write_wins [] oracleOK oracleOK choiceTwo choiceTwo
    now₀ now₀ rfl List.Pairwise.nil

/-- C1 counterexample: with both secrets absent and quotes available,
the run still makes quote-upstream network calls (the first trace event
is a fetch of `"SPY"`) before the configuration error is raised (event
index 13, after all 13 fetches), refuting "raised before any network
call is made". -/
theorem C1_counterexample :
    (main_run envMissing oracleOK choiceTwo now₀ 200 200 []).1 =
      RunResult.fatalConfig ∧
    ((main_run envMissing oracleOK choiceTwo now₀ 200 200 []).2.1)[0]? =
      some (Event.netFetch "SPY") ∧
    ((main_run envMissing oracleOK choiceTwo now₀ 200 200 []).2.1)[13]? =
      some Event.configError := by
  rw [main_run_config envMissing oracleOK choiceTwo now₀ 200 200 []
    (by decide) rows_oracleOK_ne]
  refine ⟨rfl, ?_, ?_⟩
  · rw [events_oracleOK]; rfl
  · rw [events_oracleOK]; rfl

/-- C1 as amended: if either secret is absent (and the fetched quotes
yield rows), the run fails with the configuration error raised before
any call to the persistence store — no upsert or prune network event
ever occurs and the store is untouched — and the error is never retried
(it is raised exactly once); quote-upstream fetch calls, however, do
occur before it. -/
theorem C1_config_error (env : Env) (oracle : FetchOracle)
    (choice : Nat → BatchChoice) (now : UTCTime) (us ds : Nat)
    (store : List StockPriceRow)
    (hmiss : missingConfig env = true)
    (hrows : build_rows now (fetch_all_quotes oracle choice TICKERS) ≠ []) :
    (main_run env oracle choice now us ds store).1 = .fatalConfig ∧
    Event.netUpsert ∉ (main_run env oracle choice now us ds store).2.1 ∧
    (∀ e ∈ (main_run env oracle choice now us ds store).2.1,
      e.isPrune = false) ∧
    (main_run env oracle choice now us ds store).2.1.count
      Event.configError = 1 ∧
    (main_run env oracle choice now us ds store).2.2 = store := by
  rw [main_run_config env oracle choice now us ds store hmiss hrows]
  refine ⟨rfl, ?_, ?_, ?_, rfl⟩
  · intro hmem
    rcases List.mem_append.mp hmem with h | h
    · obtain ⟨s, hs⟩ := fetch_all_events_netFetch _ _ _ _ h
      cases hs
    · simp at h
  · intro e he
    rcases List.mem_append.mp he with h | h
    · obtain ⟨s, hs⟩ := fetch_all_events_netFetch _ _ _ _ h
      rw [hs]; rfl
    · rw [List.mem_singleton.mp h]; rfl
  · rw [List.count_append]
    have h0 : (fetch_all_events oracle choice TICKERS).count
        Event.configError = 0 := by
      rw [List.count_eq_zero]
      intro hmem
      obtain ⟨s, hs⟩ := fetch_all_events_netFetch _ _ _ _ hmem
      cases hs
    rw [h0]
    rfl

/-- Witness for C1 as amended at a concrete missing-secret run. -/
theorem C1_witness :
    (main_run envMissing oracleOK choiceTwo now₀ 300 300 []).1 =
      RunResult.fatalConfig ∧
    Event.netUpsert ∉
      (main_run envMissing oracleOK choiceTwo now₀ 300 300 []).2.1 ∧
    (main_run envMissing oracleOK choiceTwo now₀ 300 300 []).2.1.count
      Event.configError = 1 :=
  ⟨(C1_config_error envMissing oracleOK choiceTwo now₀ 300 300 []
      (by decide) rows_oracleOK_ne).1,
   (C1_config_error envMissing oracleOK choiceTwo now₀ 300 300 []
      (by decide) rows_oracleOK_ne).2.1,
   (C1_config_error envMissing oracleOK choiceTwo now₀ 300 300 []
      (by decide) rows_oracleOK_ne).2.2.2.1⟩

/-- C5: an instrument whose every attempt fails is excluded from the
final row batch (its symbol appears in no emitted row), while the run
continues over the rest of the roster and still performs the upsert
(the upsert `POST` event occurs and the run succeeds). -/
theorem C5_failed_instrument_excluded (env : Env) (oracle : FetchOracle)
    (choice : Nat → BatchChoice) (now : UTCTime) (us ds : Nat)
    (store : List StockPriceRow) (t : String)
    (hfail : ∀ k, oracle t k = FetchOutcome.error)
    (henv : missingConfig env = false) (hus : us < 300)
    (hrows : build_rows now (fetch_all_quotes oracle choice TICKERS) ≠ []) :
    t ∉ rowSymbols (build_rows now (fetch_all_quotes oracle choice TICKERS)) ∧
    Event.netUpsert ∈ (main_run env oracle choice now us ds store).2.1 ∧
    (main_run env oracle choice now us ds store).1 = RunResult.success := by
  refine ⟨?_, ?_, ?_⟩
  · intro hmem
    rw [fetch_all_quotes_eq, rowSymbols_build_rows] at hmem
    rw [List.mem_filter] at hmem
    have hfs : fetchSucceeds oracle t = false := by
      rw [fetchSucceeds, fetch_ticker_price_all_error (oracle t) t hfail
        MAX_RETRIES 0 (by omega)]
      rfl
    rw [hfs] at hmem
    simp at hmem
  · rw [main_run_ok env oracle choice now us ds store henv hus hrows]
    simp
  · rw [main_run_ok env oracle choice now us ds store henv hus hrows]

/-- Witness for C5 at a run in which every attempt for `"SPY"` fails. -/
theorem C5_witness :
    "SPY" ∉ rowSymbols (build_rows now₀
      (fetch_all_quotes oracleSPYFails choiceTwo TICKERS)) ∧
    Event.netUpsert ∈
      (main_run envOK oracleSPYFails choiceTwo now₀ 200 200 []).2.1 ∧
    (main_run envOK oracleSPYFails choiceTwo now₀ 200 200 []).1 =
      RunResult.success :=
  C5_failed_instrument_excluded envOK oracleSPYFails choiceTwo now₀ 200 200 []
    "SPY" oracleSPYFails_SPY (by decide) (by decide) rows_oracleSPYFails_ne

/-- C6: in every run trace, each pruner network event is preceded by the
(successful) upsert `POST` — the pruner never runs before the upsert has
succeeded — and a pruning failure (delete status `>= 300`) is caught, the
run still reporting success. -/
theorem C6_prune_after_upsert (env : Env) (oracle : FetchOracle)
    (choice : Nat → BatchChoice) (now : UTCTime) (us ds : Nat)
    (store : List StockPriceRow) :
    (∀ (n : Nat) (e : Event),
      ((main_run env oracle choice now us ds store).2.1)[n]? = some e →
      e.isPrune = true →
      ∃ m, m < n ∧
        ((main_run env oracle choice now us ds store).2.1)[m]? =
          some Event.netUpsert) ∧
    (missingConfig env = false → us < 300 → 300 ≤ ds →
      build_rows now (fetch_all_quotes oracle choice TICKERS) ≠ [] →
      (main_run env oracle choice now us ds store).1 = RunResult.success) := by
  constructor
  · intro n e hn hp
    by_cases hrows : build_rows now (fetch_all_quotes oracle choice TICKERS) = []
    · rw [main_run_noRows env oracle choice now us ds store hrows] at hn
      obtain ⟨s, hs⟩ :=
        fetch_all_events_netFetch _ _ _ _ (List.getElem?_mem hn)
      rw [hs] at hp; cases hp
    · by_cases hmiss : missingConfig env = true
      · rw [main_run_config env oracle choice now us ds store hmiss hrows] at hn
        rcases List.mem_append.mp (List.getElem?_mem hn) with h | h
        · obtain ⟨s, hs⟩ := fetch_all_events_netFetch _ _ _ _ h
          rw [hs] at hp; cases hp
        · rw [List.mem_singleton.mp h] at hp; cases hp
      · have henv : missingConfig env = false := by
          cases h : missingConfig env
          · rfl
          · exact absurd h hmiss
        by_cases hus : 300 ≤ us
        · rw [main_run_httpError env oracle choice now us ds store
            henv hus hrows] at hn
          rcases List.mem_append.mp (List.getElem?_mem hn) with h | h
          · obtain ⟨s, hs⟩ := fetch_all_events_netFetch _ _ _ _ h
            rw [hs] at hp; cases hp
          · rw [List.mem_singleton.mp h] at hp; cases hp
        · rw [main_run_ok env oracle choice now us ds store
            henv (by omega) hrows] at hn ⊢
          rw [List.append_assoc] at hn ⊢
          rw [List.getElem?_append] at hn
          refine ⟨(fetch_all_events oracle choice TICKERS).length, ?_, ?_⟩
          · by_contra hle
            rcases Nat.lt_or_ge n
              (fetch_all_events oracle choice TICKERS).length with hlt | hge
            · rw [if_pos hlt] at hn
              obtain ⟨s, hs⟩ :=
                fetch_all_events_netFetch _ _ _ _ (List.getElem?_mem hn)
              rw [hs] at hp; cases hp
            · have hn_eq : n =
                  (fetch_all_events oracle choice TICKERS).length := by omega
              rw [if_neg (by omega), hn_eq, Nat.sub_self] at hn
              have he : e = Event.netUpsert := by
                simpa using hn.symm
              rw [he] at hp; cases hp
          · rw [List.getElem?_append, if_neg (by omega), Nat.sub_self]
            rfl
  · intro henv hus hds hrows
    rw [main_run_ok env oracle choice now us ds store henv hus hrows]

/-- Witness for C6 at a run whose pruning delete fails with status
500. -/
theorem C6_witness :
    (∀ (n : Nat) (e : Event),
      ((main_run envOK oracleOK choiceTwo now₀ 200 500 []).2.1)[n]? =
        some e →
      e.isPrune = true →
      ∃ m, m < n ∧
        ((main_run envOK oracleOK choiceTwo now₀ 200 500 []).2.1)[m]? =
          some Event.netUpsert) ∧
    (main_run envOK oracleOK choiceTwo now₀ 200 500 []).1 =
      RunResult.success :=
  ⟨(C6_prune_after_upsert envOK oracleOK choiceTwo now₀ 200 500 []).1,
   (C6_prune_after_upsert envOK oracleOK choiceTwo now₀ 200 500 []).2
     (by decide) (by decide) (by decide) rows_oracleOK_ne⟩

end BTD
